/-
Verification of `create_video.py` (automated PowerPoint-slides + narration →
narrated-video pipeline).

Shallow embedding conventions:
* A Python text document is a `List Char`; byte/character positions are `Nat`.
* Python `dict[int, str]` is an association list `List (Nat × List Char)` with
  dict insertion semantics (`dinsert`): an existing key keeps its position and
  gets the new value, a fresh key is appended.
* Fallible code returns `Except`.  The two `ValueError`s that can escape
  `parse_script` (the explicit "No SLIDE markers found" raise and the
  "substring not found" error of `str.index`) are the two constructors of
  `ScriptError`.
* Float-valued timing parameters (retry backoff seconds, fade durations) are
  modeled as `ℚ`; only exact arithmetic (`*`, `-`, `max`, powers of two) is
  performed on them in the source.
* The external collaborators (ElevenLabs TTS, ffmpeg/ffprobe) are modeled as
  oracles supplied in an environment: the TTS call is a function from the
  attempt number to a result, the ffmpeg invocations are success flags.
* Unicode notes: the regex classes `\s`, `\d`, `\w` and `str.upper`,
  `str.splitlines`, `str.strip` are modeled over their ASCII/Latin-1 behavior
  (documents containing exotic Unicode whitespace/digits are outside the
  model).
-/
import Mathlib

/-! ## STEP 1 — Parse narration script (`parse_script`, lines 91-150) -/

/-- Whitespace test used for Python's `str.strip()` and the regex class `\s`
(ASCII/Latin-1 part of Python's definition). -/
def isSpaceC (c : Char) : Bool :=
  c == ' ' || c == '\t' || c == '\n' || c == '\r' || c == '\x0b' || c == '\x0c' ||
  c == '\x1c' || c == '\x1d' || c == '\x1e' || c == '\x1f' || c == '\x85' || c == '\xa0'

/-- Word-character test for the regex `\b` boundary (`\w` = alphanumeric or
underscore, ASCII part). -/
def isWordC (c : Char) : Bool :=
  c.isAlphanum || c == '_'

/-- Line terminators recognized by Python `str.splitlines` other than `'\r'`
(which is special-cased to absorb a following `'\n'`). -/
def isTermC (c : Char) : Bool :=
  c == '\n' || c == '\x0b' || c == '\x0c' || c == '\x1c' || c == '\x1d' ||
  c == '\x1e' || c == '\x85' || c == '\u2028' || c == '\u2029'

/-- `int(...)` on the digit group captured by `(\d+)`. -/
def natOfDigits (ds : List Char) : Nat :=
  ds.foldl (fun n c => 10 * n + (c.toNat - 48)) 0

/-- Python `str.strip()`: drop whitespace from both ends. -/
def stripC (s : List Char) : List Char :=
  ((s.dropWhile isSpaceC).reverse.dropWhile isSpaceC).reverse

/-- Python `str.upper()` (ASCII part), used for the footer comparison. -/
def upperC (s : List Char) : List Char :=
  s.map Char.toUpper

/-- `re.fullmatch(r"[=\-]{3,}", stripped)`: a separator line is 3 or more
characters, each `'='` or `'-'`. -/
def isSeparatorLine (l : List Char) : Bool :=
  decide (3 ≤ l.length) && l.all (fun c => c == '=' || c == '-')

/-- `stripped.upper() in ("END OF SCRIPT", "END OF NARRATION")`. -/
def isFooterLine (l : List Char) : Bool :=
  upperC l == "END OF SCRIPT".toList || upperC l == "END OF NARRATION".toList

/-- Worker for `splitlines`: `acc` is the current line accumulated in
reverse; a `'\r'` immediately followed by `'\n'` counts as one terminator. -/
def splitlinesAux : List Char → List Char → List (List Char)
  | [], acc => if acc.isEmpty then [] else [acc.reverse]
  | c :: rest, acc =>
    if c = '\r' then
      match rest with
      | [] => [acc.reverse]
      | d :: rest' =>
        if d = '\n' then acc.reverse :: splitlinesAux rest' []
        else acc.reverse :: splitlinesAux (d :: rest') []
    else if isTermC c then acc.reverse :: splitlinesAux rest []
    else splitlinesAux rest (c :: acc)

/-- Python `str.splitlines()`. -/
def splitlines (s : List Char) : List (List Char) :=
  splitlinesAux s []

/-- The loop of lines 132-139: strip each raw line, drop separator lines and
footer lines, keep the rest (in order). -/
def cleanLines (raw : List Char) : List (List Char) :=
  (splitlines raw).filterMap fun line =>
    let stripped := stripC line
    if isSeparatorLine stripped || isFooterLine stripped then none
    else some stripped

/-- Python `"\n".join(...)`. -/
def joinNl : List (List Char) → List Char
  | [] => []
  | [l] => l
  | l :: l' :: ls => l ++ '\n' :: joinNl (l' :: ls)

/-- The replacement text for one maximal run of `k` newlines under
`re.sub(r"\n{3,}", "\n\n", ...)`: runs of 3 or more newlines become two,
shorter runs are kept. -/
def emitNl (k : Nat) : List Char :=
  if 3 ≤ k then ['\n', '\n'] else List.replicate k '\n'

/-- Worker for the `re.sub(r"\n{3,}", "\n\n", body)` substitution: `k` counts
the pending run of consecutive newlines. -/
def collapseAux : Nat → List Char → List Char
  | k, [] => emitNl k
  | k, c :: rest =>
    if c = '\n' then collapseAux (k + 1) rest
    else emitNl k ++ c :: collapseAux 0 rest

/-- `re.sub(r"\n{3,}", "\n\n", body)` (line 143): every maximal run of 3 or
more newline characters is replaced by exactly two newlines. -/
def collapseBlank (s : List Char) : List Char :=
  collapseAux 0 s

/-- Lines 132-143: clean the raw body of one slide section.
`body = "\n".join(cleaned_lines).strip()` then the `\n{3,}` substitution. -/
def cleanBody (raw : List Char) : List Char :=
  collapseBlank (stripC (joinNl (cleanLines raw)))

/-- Split a cleaned body on `'\n'` — the lines of a returned narration text
(cleaned bodies contain no `'\r'` or other terminators).  Total: the empty
text has one empty line. -/
def linesOf : List Char → List (List Char)
  | [] => [[]]
  | c :: rest =>
    if c = '\n' then [] :: linesOf rest
    else (c :: (linesOf rest).headI) :: (linesOf rest).tail

/-- Attempt the regex `SLIDE\s+(\d+)\b` (IGNORECASE) anchored at the head of
`s`.  Returns `(matched length, slide number)`; the greedy `\s+`/`(\d+)`
runs are maximal, and `\b` after the maximal digit run fails exactly when a
letter or underscore follows. -/
def matchSlide : List Char → Option (Nat × Nat)
  | c1 :: c2 :: c3 :: c4 :: c5 :: rest =>
    if c1.toLower == 's' && c2.toLower == 'l' && c3.toLower == 'i' &&
       c4.toLower == 'd' && c5.toLower == 'e' then
      let ws := rest.takeWhile isSpaceC
      let r2 := rest.dropWhile isSpaceC
      if ws.isEmpty then none
      else
        let ds := r2.takeWhile Char.isDigit
        let r3 := r2.dropWhile Char.isDigit
        if ds.isEmpty then none
        else
          match r3 with
          | [] => some (5 + ws.length + ds.length, natOfDigits ds)
          | c :: _ =>
            if isWordC c then none
            else some (5 + ws.length + ds.length, natOfDigits ds)
    else none
  | _ => none

/-- Worker for `finditer`: scan the remaining text at absolute position `p`;
`atLS` says whether `p` is a line start (position 0 or just after a `'\n'`),
where the MULTILINE `^` anchor can match.  After a match of length `len` the
scan resumes at `p + len` (matches never overlap).  Every step consumes at
least one character, so the `fuel` counter (started at the text length)
never runs out; it only makes the recursion structural. -/
def findMarkersAux : Nat → List Char → Nat → Bool → List (Nat × Nat)
  | 0, _, _, _ => []
  | _, [], _, _ => []
  | fuel + 1, c :: rest, p, atLS =>
    if atLS then
      match matchSlide (c :: rest) with
      | some (len, num) =>
        (p, num) :: findMarkersAux fuel (rest.drop (len - 1)) (p + len)
          ((((c :: rest).take len).getLast? == some '\n') : Bool)
      | none => findMarkersAux fuel rest (p + 1) (c == '\n')
    else findMarkersAux fuel rest (p + 1) (c == '\n')

/-- `list(slide_re.finditer(text))` for
`re.compile(r"^SLIDE\s+(\d+)\b", re.MULTILINE | re.IGNORECASE)` (line 111):
the list of `(match start position, parsed slide number)` in text order. -/
def findMarkers (text : List Char) : List (Nat × Nat) :=
  findMarkersAux text.length text 0 true

/-- `text.index("\n", start)`: position of the first `'\n'` at or after
`start`, or `none` (Python raises `ValueError: substring not found`). -/
def findNewlineFrom (text : List Char) (start : Nat) : Option Nat :=
  match (text.drop start).findIdx? (· == '\n') with
  | some i => some (start + i)
  | none => none

/-- Python slice `text[a:b]` (for the non-negative indices used here). -/
def pySlice (text : List Char) (a b : Nat) : List Char :=
  (text.drop a).take (b - a)

/-- Python `dict` assignment `slides[k] = v`: an existing key keeps its
position and gets the new value, a fresh key is appended. -/
def dinsert : List (Nat × List Char) → Nat → List Char → List (Nat × List Char)
  | [], k, v => [(k, v)]
  | (k', v') :: rest, k, v =>
    if k' = k then (k, v) :: rest else (k', v') :: dinsert rest k v

/-- The two `ValueError`s that can escape `parse_script`: the explicit
"No SLIDE markers found" raise (line 115, the spec's `ParseError`) and the
"substring not found" error raised by `text.index` (line 123). -/
inductive ScriptError
  | noMarkers
  | substringNotFound
deriving DecidableEq

/-- `body_end`: the start of the next match, or the end of the text for the
last match (line 127). -/
def bodyEndOf (text : List Char) : List (Nat × Nat) → Nat
  | [] => text.length
  | (s, _) :: _ => s

/-- The `for idx, match in enumerate(matches)` loop of lines 119-148: for each
match, find the end of its header line, cut the body at the next match start
(or end of text), clean it, and store it under the parsed slide number.
(The empty-body warning of line 146 is a log message only.) -/
def buildSlides (text : List Char) :
    List (Nat × Nat) → List (Nat × List Char) → Except ScriptError (List (Nat × List Char))
  | [], acc => .ok acc
  | (start, num) :: rest, acc =>
    match findNewlineFrom text start with
    | none => .error .substringNotFound
    | some lineEnd =>
      let bodyStart := lineEnd + 1
      let bodyEnd := bodyEndOf text rest
      let body := cleanBody (pySlice text bodyStart bodyEnd)
      buildSlides text rest (dinsert acc num body)

/-- `parse_script` (lines 91-150), the script path replaced by the text it
reads: find all `SLIDE <n>` markers, fail if there are none, else build the
slide-number → cleaned-narration mapping. -/
def parse_script (text : List Char) : Except ScriptError (List (Nat × List Char)) :=
  let ms := findMarkers text
  if ms.isEmpty then .error .noMarkers
  else buildSlides text ms []

/-! ## STEP 2 — Generate audio (`generate_audio`, lines 157-215) -/

/-- `MAX_RETRIES` (line 73). -/
def MAX_RETRIES : Nat := 3

/-- `RETRY_BACKOFF` (line 74), seconds. -/
def RETRY_BACKOFF : ℚ := 2

/-- `SKIP_EXISTING_AUDIO` (line 77). -/
def SKIP_EXISTING_AUDIO : Bool := true

/-- `CLEANUP` (line 78). -/
def CLEANUP : Bool := true

/-- Decidable equality for `Except` outcomes (needed to evaluate runs on
concrete inputs). -/
instance {ε α : Type} [DecidableEq ε] [DecidableEq α] : DecidableEq (Except ε α) := fun x y =>
  match x, y with
  | .ok a, .ok b =>
    if h : a = b then .isTrue (by rw [h]) else .isFalse (by intro he; cases he; exact h rfl)
  | .error a, .error b =>
    if h : a = b then .isTrue (by rw [h]) else .isFalse (by intro he; cases he; exact h rfl)
  | .ok _, .error _ => .isFalse (by intro he; cases he)
  | .error _, .ok _ => .isFalse (by intro he; cases he)

/-- The `RuntimeError` raised after all attempts fail (line 212), wrapping the
last cause (`from exc`). -/
inductive SynthError (E : Type)
  | synthesisError (cause : E)
deriving DecidableEq

/-- Observable outcome of one `generate_audio` call: number of calls made to
`client.text_to_speech.convert`, the `time.sleep` waits performed between
attempts (in order), the result, and the final content of `output_path`
(`none` = no file). -/
structure SynthRun (E : Type) where
  calls : Nat
  waits : List ℚ
  result : Except (SynthError E) Unit
  file : Option (List Nat)
deriving DecidableEq

/-- `output_path.is_file() and output_path.stat().st_size > 0` (line 170). -/
def is_file_nonempty : Option (List Nat) → Bool
  | some d => !d.isEmpty
  | none => false

/-- The `for attempt in range(1, MAX_RETRIES + 1)` loop of lines 187-215,
iterating over the list of remaining attempt numbers: call the collaborator;
on success write the bytes and return; on failure sleep
`RETRY_BACKOFF * 2 ** (attempt - 1)` and retry, unless this was the last
attempt (`attempt < MAX_RETRIES` fails), in which case raise wrapping the
last cause.  An empty attempt list falls through the loop, which in Python
returns `None` (success) without writing. -/
def synthAttempts {E : Type} (convert : Nat → Except E (List Nat))
    (file : Option (List Nat)) : List Nat → SynthRun E
  | [] => ⟨0, [], .ok (), file⟩
  | attempt :: rest =>
    match convert attempt with
    | .ok bytes => ⟨1, [], .ok (), some bytes⟩
    | .error exc =>
      if attempt < MAX_RETRIES then
        let wait := RETRY_BACKOFF * 2 ^ (attempt - 1)
        let r := synthAttempts convert file rest
        ⟨r.calls + 1, wait :: r.waits, r.result, r.file⟩
      else ⟨1, [], .error (.synthesisError exc), file⟩

/-- `generate_audio` (lines 157-215): the caching shortcut of lines 170-172
followed by the retry loop over attempts `1, …, MAX_RETRIES`.  `skip` is
`SKIP_EXISTING_AUDIO`, `file` the current content of `output_path`,
`convert` the TTS collaborator indexed by attempt number. -/
def generate_audio {E : Type} (skip : Bool) (file : Option (List Nat))
    (convert : Nat → Except E (List Nat)) : SynthRun E :=
  if skip && is_file_nonempty file then ⟨0, [], .ok (), file⟩
  else synthAttempts convert file (List.range' 1 MAX_RETRIES)

/-! ## STEP 5 — Fades (`apply_fades`, lines 368-400) -/

/-- `FADE_DURATION` (line 70), seconds. -/
def FADE_DURATION : ℚ := 1 / 2

/-- Parameters of one `fade`/`afade` filter pair: fade-in start/duration and
fade-out start/duration. -/
structure FadeParams where
  inStart : ℚ
  inDur : ℚ
  outStart : ℚ
  outDur : ℚ
deriving DecidableEq

/-- The filters passed by `apply_fades`: the `-vf` chain (video track) and the
`-af` chain (audio track). -/
structure FadeFilters where
  video : FadeParams
  audio : FadeParams
deriving DecidableEq

/-- `apply_fades` (lines 368-400), as a function of the probed total duration
of the input: `fade_out_start = max(0.0, total_dur - FADE_DURATION)`, used in
both the video and the audio filter chains. -/
def apply_fades (total_dur : ℚ) : FadeFilters :=
  let fade_out_start := max 0 (total_dur - FADE_DURATION)
  ⟨⟨0, FADE_DURATION, fade_out_start, FADE_DURATION⟩,
   ⟨0, FADE_DURATION, fade_out_start, FADE_DURATION⟩⟩

/-! ## MAIN — reconciliation and pipeline sequencing (lines 459-597) -/

/-- `sorted(set(slide_images) - set(narration))` (line 508). -/
def only_images (slide_images narration : Finset Nat) : List Nat :=
  (slide_images \ narration).sort (· ≤ ·)

/-- `sorted(set(narration) - set(slide_images))` (line 509). -/
def only_narration (slide_images narration : Finset Nat) : List Nat :=
  (narration \ slide_images).sort (· ≤ ·)

/-- `sorted(set(slide_images) & set(narration))` (line 524): the processing
order for the whole pipeline. -/
def slide_numbers (slide_images narration : Finset Nat) : List Nat :=
  (slide_images ∩ narration).sort (· ≤ ·)

/-- Lines 507-524: images without narration are fatal (`sys.exit`), narration
without images is a printed warning; on success return the warned slide
numbers and the workable processing order. -/
def reconcile (slide_images narration : Finset Nat) :
    Except (List Nat) (List Nat × List Nat) :=
  if only_images slide_images narration = [] then
    .ok (only_narration slide_images narration, slide_numbers slide_images narration)
  else .error (only_images slide_images narration)

/-- The files the pipeline itself creates and deletes in the working
directory, keyed by slide number where applicable (`slide<n>.mp3`,
`slide<n>_padded.mp3`, `slide<n>.mp4`, `_concat_list.txt`, `_raw_concat.mp4`,
`final_video.mp4`; the distinct Python filename strings are distinct
constructors). -/
inductive Artifact
  | rawAudio (n : Nat)
  | paddedAudio (n : Nat)
  | segment (n : Nat)
  | concatList
  | rawConcat
  | finalVideo
deriving DecidableEq

/-- The fatal outcomes of a `main` run as modeled (besides success):
no images found (line 496), reconciliation failure (line 511), TTS failure
after all retries, non-zero ffmpeg exit. -/
inductive MainError
  | noImages
  | reconciliationError (ks : List Nat)
  | synthesisError
  | mediaError
deriving DecidableEq

/-- Environment of one `main` run: the parsed narration keys, discovered
image keys, initial on-disk artifacts with the byte content of any cached
per-slide audio, the TTS collaborator (slide → attempt → result), the
success/failure of each external ffmpeg invocation, and the two behavior
flags. -/
structure Env where
  narration : Finset Nat
  slide_images : Finset Nat
  fs0 : Finset Artifact
  cached : Nat → List Nat
  convert : Nat → Nat → Except Unit (List Nat)
  padOk : Nat → Bool
  segOk : Nat → Bool
  concatOk : Bool
  fadeOk : Bool
  skip_existing : Bool
  cleanup : Bool

/-- Result of a `main` run: final on-disk artifacts, the set of artifacts the
run itself wrote (ghost observability, like the TTS call count), total number
of calls made to the TTS collaborator, the workable slide order that was
processed, and the outcome. -/
structure MainRun where
  fs : Finset Artifact
  written : Finset Artifact
  ttsCalls : Nat
  workable : List Nat
  outcome : Except MainError Unit

/-- The per-slide intermediate artifacts of the workable slides: the deletion
list of lines 582-586 (`audio_files` + `padded_files` + `slide_videos`). -/
def intermediates (wk : List Nat) : Finset Artifact :=
  wk.foldr (fun n s =>
    insert (Artifact.rawAudio n) (insert (Artifact.paddedAudio n)
      (insert (Artifact.segment n) s))) ∅

/-- The Step-2 loop (lines 529-533): call `generate_audio` for each workable
slide in order; a raised `RuntimeError` aborts the run.  Returns the file
state, the artifacts written so far (`generate_audio` writes the file unless
the cache shortcut fired, i.e. unless it made zero collaborator calls), the
accumulated TTS call count, and the outcome. -/
def synthesisLoop (env : Env) : List Nat → Finset Artifact → Finset Artifact → Nat →
    Finset Artifact × Finset Artifact × Nat × Except MainError Unit
  | [], fs, w, calls => (fs, w, calls, .ok ())
  | n :: rest, fs, w, calls =>
    let file := if Artifact.rawAudio n ∈ fs then some (env.cached n) else none
    let r := generate_audio env.skip_existing file (env.convert n)
    match r.result with
    | .ok _ =>
      synthesisLoop env rest (fs ∪ {Artifact.rawAudio n})
        (if r.calls = 0 then w else w ∪ {Artifact.rawAudio n}) (calls + r.calls)
    | .error _ => (fs, w, calls + r.calls, .error .synthesisError)

/-- The Step-3 loop (lines 541-551): pad each slide's audio then render its
video segment; any non-zero ffmpeg exit aborts the run. -/
def buildLoop (env : Env) : List Nat → Finset Artifact → Finset Artifact →
    Finset Artifact × Finset Artifact × Except MainError Unit
  | [], fs, w => (fs, w, .ok ())
  | n :: rest, fs, w =>
    if env.padOk n then
      if env.segOk n then
        buildLoop env rest ((fs ∪ {Artifact.paddedAudio n}) ∪ {Artifact.segment n})
          ((w ∪ {Artifact.paddedAudio n}) ∪ {Artifact.segment n})
      else (fs ∪ {Artifact.paddedAudio n}, w ∪ {Artifact.paddedAudio n}, .error .mediaError)
    else (fs, w, .error .mediaError)

/-- Steps 4-5 and cleanup (lines 553-590): write the concat list, concatenate
(deleting the list on success), apply fades (deleting the raw concat on
success), then delete the per-slide intermediates when `CLEANUP` is set. -/
def tailStages (env : Env) (wk : List Nat) (calls : Nat) (fs w : Finset Artifact) : MainRun :=
  let fsC := fs ∪ {Artifact.concatList}
  let wC := w ∪ {Artifact.concatList}
  if env.concatOk then
    let fs4 := (fsC ∪ {Artifact.rawConcat}) \ {Artifact.concatList}
    let w4 := wC ∪ {Artifact.rawConcat}
    if env.fadeOk then
      let fs5 := (fs4 ∪ {Artifact.finalVideo}) \ {Artifact.rawConcat}
      let w5 := w4 ∪ {Artifact.finalVideo}
      let fs6 := if env.cleanup then fs5 \ intermediates wk else fs5
      ⟨fs6, w5, calls, wk, .ok ()⟩
    else ⟨fs4, w4, calls, wk, .error .mediaError⟩
  else ⟨fsC, wC, calls, wk, .error .mediaError⟩

/-- `main` (lines 459-597) from the point where the script text has been
parsed and the images discovered: the no-images check, reconciliation, and
the sequential pipeline.  Configuration-validation exits (missing API key,
missing ffmpeg, missing script) happen before and are not modeled. -/
def runMain (env : Env) : MainRun :=
  if env.slide_images = ∅ then ⟨env.fs0, ∅, 0, [], .error .noImages⟩
  else
    match reconcile env.slide_images env.narration with
    | .error ks => ⟨env.fs0, ∅, 0, [], .error (.reconciliationError ks)⟩
    | .ok (_warns, wk) =>
      match synthesisLoop env wk env.fs0 ∅ 0 with
      | (fs1, w1, calls, .error e) => ⟨fs1, w1, calls, wk, .error e⟩
      | (fs1, w1, calls, .ok _) =>
        match buildLoop env wk fs1 w1 with
        | (fs2, w2, .error e) => ⟨fs2, w2, calls, wk, .error e⟩
        | (fs2, w2, .ok _) => tailStages env wk calls fs2 w2

/-! ## Theorems -/

/-- C5: for every document in which the slide-marker regex finds zero
matches, `parse_script` fails with the no-markers `ValueError` (the spec's
`ParseError`) and returns no mapping. -/
theorem parse_script_no_markers (doc : List Char) (h : findMarkers doc = []) :
    parse_script doc = .error .noMarkers := by
  simp [parse_script, h]

/-- Witness for `parse_script_no_markers` at a concrete document. -/
theorem parse_script_no_markers_witness :
    findMarkers ("hello world".toList) = [] ∧
    parse_script ("hello world".toList) = .error .noMarkers :=
  ⟨by decide, parse_script_no_markers _ (by decide)⟩

/-- C10: there is a document with a `SLIDE <integer>` marker on which
`parse_script` raises an exception that is not the zero-markers error:
when the (last) marker line is the final line and is not terminated by a
newline, `text.index("\n", match.start())` fails with the distinct
substring-not-found `ValueError`. -/
theorem parse_script_unterminated_marker :
    (findMarkers ("SLIDE 1".toList)).length = 1 ∧
    parse_script ("SLIDE 1".toList) = .error .substringNotFound := by
  decide

/-- C2 (divergence witness): on the document `"SLIDE 1\nA\n\n\nB\n"`, whose
section body contains a run of exactly two blank lines (fewer than 3), the
returned body has that run collapsed to a single blank line — the
`re.sub(r"\n{3,}", ...)` of line 143 rewrites any run of 3+ newline
characters, i.e. any run of 2+ blank lines, contradicting the comment on
line 141 ("Collapse 3+ consecutive blank lines") and the claim. -/
theorem parse_script_two_blank_lines_collapsed :
    splitlines ("A\n\n\nB\n".toList) = [['A'], [], [], ['B']] ∧
    parse_script ("SLIDE 1\nA\n\n\nB\n".toList) = .ok [(1, "A\n\nB".toList)] ∧
    linesOf ("A\n\nB".toList) = [['A'], [], ['B']] := by
  decide

/-- C8: the fade-out start computed by `apply_fades` is
`max(0, total_dur - FADE_DURATION)`, the audio filter chain uses the same
parameters as the video chain, and for a total duration below the fade
duration the fade-out start clamps to 0. -/
theorem apply_fades_fade_out_start (T : ℚ) :
    (apply_fades T).video.outStart = max 0 (T - FADE_DURATION) ∧
    (apply_fades T).audio = (apply_fades T).video ∧
    (T < FADE_DURATION → (apply_fades T).video.outStart = 0) := by
  refine ⟨rfl, rfl, fun h => ?_⟩
  simp only [apply_fades]
  exact max_eq_left (by linarith)

/-- Witness for `apply_fades_fade_out_start` at `T = 0 < FADE_DURATION`. -/
theorem apply_fades_fade_out_start_witness :
    ((apply_fades 0).video.outStart = max 0 (0 - FADE_DURATION) ∧
      (apply_fades 0).audio = (apply_fades 0).video ∧
      ((0 : ℚ) < FADE_DURATION → (apply_fades 0).video.outStart = 0)) ∧
    (0 : ℚ) < FADE_DURATION ∧ (apply_fades 0).video.outStart = 0 :=
  ⟨apply_fades_fade_out_start 0, one_half_pos,
    (apply_fades_fade_out_start 0).2.2 one_half_pos⟩

/-- C6: with the cache policy enabled and a non-empty artifact already at the
destination, `generate_audio` makes zero collaborator calls, sleeps never,
returns success, and leaves the artifact unchanged. -/
theorem generate_audio_cache_spec {E : Type} (convert : Nat → Except E (List Nat))
    (d : List Nat) (hd : d ≠ []) :
    generate_audio SKIP_EXISTING_AUDIO (some d) convert = ⟨0, [], .ok (), some d⟩ := by
  simp [generate_audio, is_file_nonempty, SKIP_EXISTING_AUDIO, hd]

/-- Witness for `generate_audio_cache_spec`: a cached one-byte file and a
collaborator that always fails is never called. -/
theorem generate_audio_cache_spec_witness :
    [7] ≠ ([] : List Nat) ∧
    generate_audio SKIP_EXISTING_AUDIO (some [7])
      (fun _ => (.error () : Except Unit (List Nat))) = ⟨0, [], .ok (), some [7]⟩ :=
  ⟨by decide, generate_audio_cache_spec _ [7] (by decide)⟩

/-- C4: on a collaborator failing at attempts 1 and 2 and succeeding at 3,
`generate_audio` succeeds with exactly 3 collaborator calls and strictly
increasing waits (the base delay doubling); on a collaborator failing at
every attempt it makes `MAX_RETRIES` calls and fails with a `SynthesisError`
wrapping the last cause. -/
theorem generate_audio_retry_spec {E : Type} (convert : Nat → Except E (List Nat))
    (skip : Bool) :
    (∀ b1 b2 d, convert 1 = .error b1 → convert 2 = .error b2 → convert 3 = .ok d →
      (generate_audio skip none convert).result = .ok () ∧
      (generate_audio skip none convert).calls = 3 ∧
      (generate_audio skip none convert).waits =
        [RETRY_BACKOFF * 2 ^ 0, RETRY_BACKOFF * 2 ^ 1] ∧
      List.Chain' (· < ·) (generate_audio skip none convert).waits) ∧
    (∀ errs : Nat → E, (∀ a, convert a = .error (errs a)) →
      (generate_audio skip none convert).calls = MAX_RETRIES ∧
      (generate_audio skip none convert).result =
        .error (.synthesisError (errs MAX_RETRIES))) := by
  have hga : generate_audio skip none convert = synthAttempts convert none [1, 2, 3] := by
    have h1 : (skip && is_file_nonempty none) = false := by simp [is_file_nonempty]
    rw [generate_audio, h1]
    rfl
  constructor
  · intro b1 b2 d h1 h2 h3
    rw [hga]
    rw [synthAttempts, h1]
    rw [synthAttempts, h2]
    rw [synthAttempts, h3]
    norm_num [MAX_RETRIES, RETRY_BACKOFF]
  · intro errs h
    rw [hga]
    rw [synthAttempts, h 1]
    rw [synthAttempts, h 2]
    rw [synthAttempts, h 3]
    norm_num [MAX_RETRIES]

/-- Witness for `generate_audio_retry_spec`: a collaborator succeeding only at
attempt 3, and one failing always. -/
theorem generate_audio_retry_spec_witness :
    ((generate_audio true none
        (fun a => if a = 3 then .ok [1] else (.error () : Except Unit (List Nat)))).result =
          .ok () ∧
      (generate_audio true none
        (fun a => if a = 3 then .ok [1] else (.error () : Except Unit (List Nat)))).calls = 3 ∧
      (generate_audio true none
        (fun a => if a = 3 then .ok [1] else (.error () : Except Unit (List Nat)))).waits =
          [RETRY_BACKOFF * 2 ^ 0, RETRY_BACKOFF * 2 ^ 1] ∧
      List.Chain' (· < ·)
        (generate_audio true none
          (fun a => if a = 3 then .ok [1] else (.error () : Except Unit (List Nat)))).waits) ∧
    ((generate_audio true none (fun _ => (.error () : Except Unit (List Nat)))).calls =
        MAX_RETRIES ∧
      (generate_audio true none (fun _ => (.error () : Except Unit (List Nat)))).result =
        .error (.synthesisError ())) :=
  ⟨(generate_audio_retry_spec
      (fun a => if a = 3 then .ok [1] else (.error () : Except Unit (List Nat))) true).1
      () () [1] (by decide) (by decide) (by decide),
    (generate_audio_retry_spec (fun _ => (.error () : Except Unit (List Nat))) true).2
      (fun _ => ()) (fun _ => rfl)⟩

/-- Helper: a nonempty images-minus-narration set makes `reconcile` fail with
exactly that sorted key list. -/
theorem reconcile_eq_error_of_sdiff_nonempty (images narration : Finset Nat)
    (h : (images \ narration).Nonempty) :
    reconcile images narration = .error ((images \ narration).sort (· ≤ ·)) := by
  have hlen : ((images \ narration).sort (· ≤ ·)).length = (images \ narration).card :=
    Finset.length_sort _
  have hne : only_images images narration ≠ [] := by
    intro hnil
    rw [only_images] at hnil
    rw [hnil] at hlen
    exact absurd hlen.symm (Nat.ne_of_gt (Finset.card_pos.mpr h))
  rw [reconcile, if_neg hne]
  rfl

/-- C3: the workable slide numbers are the ascending sort of the intersection
of the two key sets; images without narration make reconciliation fail
fatally with exactly those keys; narration without images leaves
reconciliation succeeding (warning only) and those slides excluded from the
workable order. -/
theorem reconciler_spec (images narration : Finset Nat) :
    slide_numbers images narration = (narration ∩ images).sort (· ≤ ·) ∧
    ((images \ narration).Nonempty →
      reconcile images narration = .error ((images \ narration).sort (· ≤ ·))) ∧
    (images \ narration = ∅ →
      reconcile images narration =
        .ok ((narration \ images).sort (· ≤ ·), (narration ∩ images).sort (· ≤ ·)) ∧
      ∀ n ∈ narration, n ∉ images → n ∉ slide_numbers images narration) := by
  refine ⟨by rw [slide_numbers, Finset.inter_comm],
    reconcile_eq_error_of_sdiff_nonempty images narration, fun h => ⟨?_, ?_⟩⟩
  · have hnil : only_images images narration = [] := by
      rw [only_images, h, Finset.sort_empty]
    rw [reconcile, if_pos hnil, only_narration, slide_numbers, Finset.inter_comm]
  · intro n _hn hni
    simp only [slide_numbers, Finset.mem_sort, Finset.mem_inter]
    intro hmem
    exact hni hmem.1

/-- Witness for `reconciler_spec`: image 2 without narration is fatal;
narration 2 without an image is only excluded. -/
theorem reconciler_spec_witness :
    (({1, 2} : Finset Nat) \ {1}).Nonempty ∧
    reconcile {1, 2} {1} = .error [2] ∧
    ({1} : Finset Nat) \ {1, 2} = ∅ ∧
    reconcile {1} {1, 2} = .ok ([2], [1]) ∧
    2 ∉ slide_numbers {1} {1, 2} := by
  have h1 := (reconciler_spec {1, 2} {1}).2.1 (by decide)
  have h2 := (reconciler_spec {1, 2} {1}).2.2
  have h3 := (reconciler_spec {1} {1, 2}).2.2 (by decide)
  refine ⟨by decide, ?_, by decide, ?_, h3.2 2 (by decide) (by decide)⟩
  · rw [h1]
    have : (({1, 2} : Finset Nat) \ {1}) = {2} := by decide
    rw [this, Finset.sort_singleton]
  · rw [h3.1]
    have e1 : (({1, 2} : Finset Nat) \ {1}) = {2} := by decide
    have e2 : (({1, 2} : Finset Nat) ∩ {1}) = {1} := by decide
    rw [e1, e2, Finset.sort_singleton, Finset.sort_singleton]

/-- Helper: the synthesis loop only adds files. -/
theorem synthesisLoop_mono (env : Env) (l : List Nat) :
    ∀ fs w calls a, a ∈ fs → a ∈ (synthesisLoop env l fs w calls).1 := by
  induction l with
  | nil => intro fs w calls a ha; simpa [synthesisLoop] using ha
  | cons n rest ih =>
    intro fs w calls a ha
    simp only [synthesisLoop]
    split
    · exact ih _ _ _ _ (Finset.mem_union_left _ ha)
    · simpa using ha

/-- Helper: every file the synthesis loop records as written is on disk in
its resulting file state (provided that already held on entry). -/
theorem synthesisLoop_written (env : Env) (l : List Nat) :
    ∀ fs w calls, (∀ a ∈ w, a ∈ fs) →
      ∀ a, a ∈ (synthesisLoop env l fs w calls).2.1 →
        a ∈ (synthesisLoop env l fs w calls).1 := by
  induction l with
  | nil =>
    intro fs w calls hw a
    simp only [synthesisLoop]
    exact hw a
  | cons n rest ih =>
    intro fs w calls hw a
    simp only [synthesisLoop]
    split
    · refine ih _ _ _ ?_ a
      intro b hb
      split at hb <;> split at hb <;>
        first
        | exact Finset.mem_union_left _ (hw b hb)
        | exact (Finset.mem_union.mp hb).elim
            (fun h => Finset.mem_union_left _ (hw b h))
            (fun h => Finset.mem_union_right _ h)
    · exact hw a

/-- Helper: the segment-building loop only adds files. -/
theorem buildLoop_mono (env : Env) (l : List Nat) :
    ∀ fs w a, a ∈ fs → a ∈ (buildLoop env l fs w).1 := by
  induction l with
  | nil => intro fs w a ha; simpa [buildLoop] using ha
  | cons n rest ih =>
    intro fs w a ha
    simp only [buildLoop]
    split
    · split
      · exact ih _ _ _ (Finset.mem_union_left _ (Finset.mem_union_left _ ha))
      · exact Finset.mem_union_left _ ha
    · exact ha

/-- Helper: every file the segment-building loop records as written is on
disk in its resulting file state (provided that already held on entry). -/
theorem buildLoop_written (env : Env) (l : List Nat) :
    ∀ fs w, (∀ a ∈ w, a ∈ fs) →
      ∀ a, a ∈ (buildLoop env l fs w).2.1 → a ∈ (buildLoop env l fs w).1 := by
  induction l with
  | nil =>
    intro fs w hw a
    simp only [buildLoop]
    exact hw a
  | cons n rest ih =>
    intro fs w hw a
    simp only [buildLoop]
    split
    · split
      · refine ih _ _ ?_ a
        intro b hb
        rcases Finset.mem_union.mp hb with h | h
        · rcases Finset.mem_union.mp h with h2 | h2
          · exact Finset.mem_union_left _ (Finset.mem_union_left _ (hw b h2))
          · exact Finset.mem_union_left _ (Finset.mem_union_right _ h2)
        · exact Finset.mem_union_right _ h
      · intro ha
        rcases Finset.mem_union.mp ha with h | h
        · exact Finset.mem_union_left _ (hw a h)
        · exact Finset.mem_union_right _ h
    · exact hw a

/-- Helper: unfolding `intermediates` on a cons. -/
theorem intermediates_cons (n : Nat) (wk : List Nat) :
    intermediates (n :: wk) =
      insert (Artifact.rawAudio n) (insert (Artifact.paddedAudio n)
        (insert (Artifact.segment n) (intermediates wk))) := rfl

/-- Helper: membership in the per-slide intermediate set. -/
theorem mem_intermediates (a : Artifact) (wk : List Nat) :
    a ∈ intermediates wk ↔ ∃ n ∈ wk,
      a = Artifact.rawAudio n ∨ a = Artifact.paddedAudio n ∨ a = Artifact.segment n := by
  induction wk with
  | nil => simp [intermediates]
  | cons m rest ih =>
    rw [intermediates_cons]
    simp only [Finset.mem_insert, ih, List.mem_cons]
    constructor
    · rintro (rfl | rfl | rfl | ⟨n, hn, h⟩)
      · exact ⟨m, Or.inl rfl, Or.inl rfl⟩
      · exact ⟨m, Or.inl rfl, Or.inr (Or.inl rfl)⟩
      · exact ⟨m, Or.inl rfl, Or.inr (Or.inr rfl)⟩
      · exact ⟨n, Or.inr hn, h⟩
    · rintro ⟨n, rfl | hn, rfl | rfl | rfl⟩
      · exact Or.inl rfl
      · exact Or.inr (Or.inl rfl)
      · exact Or.inr (Or.inr (Or.inl rfl))
      · exact Or.inr (Or.inr (Or.inr ⟨n, hn, Or.inl rfl⟩))
      · exact Or.inr (Or.inr (Or.inr ⟨n, hn, Or.inr (Or.inl rfl)⟩))
      · exact Or.inr (Or.inr (Or.inr ⟨n, hn, Or.inr (Or.inr rfl)⟩))

/-- C7: when some image slide number has no matching narration section, the
run fails with the reconciliation error (carrying exactly those slide
numbers) and the TTS collaborator is called zero times. -/
theorem runMain_reconciliation_before_synthesis (env : Env)
    (h : (env.slide_images \ env.narration).Nonempty) :
    (runMain env).outcome =
      .error (.reconciliationError ((env.slide_images \ env.narration).sort (· ≤ ·))) ∧
    (runMain env).ttsCalls = 0 := by
  have himg : ¬env.slide_images = ∅ := by
    obtain ⟨x, hx⟩ := h
    exact Finset.ne_empty_of_mem (Finset.mem_sdiff.mp hx).1
  have hrec := reconcile_eq_error_of_sdiff_nonempty env.slide_images env.narration h
  rw [runMain, if_neg himg]
  simp only [hrec]
  refine ⟨?_, ?_⟩ <;> first | rfl | trivial

/-- Witness for `runMain_reconciliation_before_synthesis`: `slide3.png` exists
with no narration for slide 3. -/
theorem runMain_reconciliation_before_synthesis_witness :
    ((({3} : Finset Nat)) \ (∅ : Finset Nat)).Nonempty ∧
    (runMain ⟨∅, {3}, ∅, (fun _ => []), (fun _ _ => .ok []), (fun _ => true),
        (fun _ => true), true, true, true, true⟩).outcome =
      .error (.reconciliationError [3]) ∧
    (runMain ⟨∅, {3}, ∅, (fun _ => []), (fun _ _ => .ok []), (fun _ => true),
        (fun _ => true), true, true, true, true⟩).ttsCalls = 0 := by
  have h := runMain_reconciliation_before_synthesis
    ⟨∅, {3}, ∅, (fun _ => []), (fun _ _ => .ok []), (fun _ => true),
      (fun _ => true), true, true, true, true⟩ (by decide)
  refine ⟨by decide, ?_, h.2⟩
  rw [h.1]
  have e : (({3} : Finset Nat)) \ (∅ : Finset Nat) = {3} := by decide
  rw [show (⟨∅, {3}, ∅, (fun _ => []), (fun _ _ => .ok []), (fun _ => true),
      (fun _ => true), true, true, true, true⟩ : Env).slide_images = {3} from rfl,
    show (⟨∅, {3}, ∅, (fun _ => []), (fun _ _ => .ok []), (fun _ => true),
      (fun _ => true), true, true, true, true⟩ : Env).narration = ∅ from rfl,
    e, Finset.sort_singleton]

/-- C9: a run that reaches `Done` with cleanup enabled has every per-slide
intermediate artifact (raw audio, padded audio, video segment) of every
processed slide deleted while the final output file remains; a run that
fails in any state deletes nothing except possibly the temporary concat
list, so every file present before the run and every file the run itself
wrote — in particular all partially-produced per-slide artifacts — is left
on disk. -/
theorem runMain_cleanup_spec (env : Env) :
    ((runMain env).outcome = .ok () → env.cleanup = true →
      (∀ n ∈ (runMain env).workable,
        Artifact.rawAudio n ∉ (runMain env).fs ∧
        Artifact.paddedAudio n ∉ (runMain env).fs ∧
        Artifact.segment n ∉ (runMain env).fs) ∧
      Artifact.finalVideo ∈ (runMain env).fs) ∧
    (∀ e, (runMain env).outcome = .error e →
      ∀ a : Artifact, a ≠ .concatList →
        a ∈ env.fs0 ∨ a ∈ (runMain env).written → a ∈ (runMain env).fs) := by
  by_cases himg : env.slide_images = ∅
  · rw [runMain, if_pos himg]
    constructor
    · intro hok
      exact Except.noConfusion hok
    · intro e he a hcl hmem
      rcases hmem with hfs | hw
      · exact hfs
      · exact absurd hw (Finset.not_mem_empty a)
  · rw [runMain, if_neg himg]
    rcases hrec : reconcile env.slide_images env.narration with ks | ⟨warns, wk⟩
    · simp only [hrec]
      constructor
      · intro hok
        exact Except.noConfusion hok
      · intro e he a hcl hmem
        rcases hmem with hfs | hw
        · exact hfs
        · exact absurd hw (Finset.not_mem_empty a)
    · simp only [hrec]
      rcases hs : synthesisLoop env wk env.fs0 ∅ 0 with ⟨fs1, w1, calls, r1⟩
      have hww1 : ∀ b ∈ w1, b ∈ fs1 := by
        intro b hb
        have h5 := synthesisLoop_written env wk env.fs0 ∅ 0
          (fun b hb0 => absurd hb0 (Finset.not_mem_empty b)) b
        rw [hs] at h5
        exact h5 hb
      have hmono1 : ∀ b ∈ env.fs0, b ∈ fs1 := by
        intro b hb
        have h5 := synthesisLoop_mono env wk env.fs0 ∅ 0 b hb
        rw [hs] at h5
        exact h5
      cases r1 with
      | error e1 =>
        simp only [hs]
        constructor
        · intro hok
          exact Except.noConfusion hok
        · intro e he a hcl hmem
          rcases hmem with hfs | hw
          · exact hmono1 a hfs
          · exact hww1 a hw
      | ok u =>
        rcases hbl : buildLoop env wk fs1 w1 with ⟨fs2, w2, r2⟩
        have hww2 : ∀ b ∈ w2, b ∈ fs2 := by
          intro b hb
          have h5 := buildLoop_written env wk fs1 w1 hww1 b
          rw [hbl] at h5
          exact h5 hb
        have hmono2 : ∀ b ∈ env.fs0, b ∈ fs2 := by
          intro b hb
          have h5 := buildLoop_mono env wk fs1 w1 b (hmono1 b hb)
          rw [hbl] at h5
          exact h5
        cases r2 with
        | error e2 =>
          simp only [hs, hbl]
          constructor
          · intro hok
            exact Except.noConfusion hok
          · intro e he a hcl hmem
            rcases hmem with hfs | hw
            · exact hmono2 a hfs
            · exact hww2 a hw
        | ok v =>
          simp only [hs, hbl, tailStages]
          by_cases hc : env.concatOk = true
          · simp only [hc, if_true]
            by_cases hf : env.fadeOk = true
            · simp only [hf, if_true]
              constructor
              · intro hok hcl
                simp only [hcl, if_true]
                constructor
                · intro n hn
                  refine ⟨?_, ?_, ?_⟩
                  · intro hmem
                    exact (Finset.mem_sdiff.mp hmem).2
                      ((mem_intermediates _ wk).mpr ⟨n, hn, Or.inl rfl⟩)
                  · intro hmem
                    exact (Finset.mem_sdiff.mp hmem).2
                      ((mem_intermediates _ wk).mpr ⟨n, hn, Or.inr (Or.inl rfl)⟩)
                  · intro hmem
                    exact (Finset.mem_sdiff.mp hmem).2
                      ((mem_intermediates _ wk).mpr ⟨n, hn, Or.inr (Or.inr rfl)⟩)
                · refine Finset.mem_sdiff.mpr ⟨?_, ?_⟩
                  · refine Finset.mem_sdiff.mpr ⟨?_, ?_⟩
                    · exact Finset.mem_union_right _ (Finset.mem_singleton_self _)
                    · simp
                  · simp [mem_intermediates]
              · intro e he
                exact Except.noConfusion he
            · simp only [hf, if_false]
              constructor
              · intro hok
                exact Except.noConfusion hok
              · intro e he a hcl hmem
                have hfs2 : a ∈ fs2 ∨ a = Artifact.rawConcat := by
                  rcases hmem with hfs | hw
                  · exact Or.inl (hmono2 a hfs)
                  · rcases Finset.mem_union.mp hw with h | h
                    · rcases Finset.mem_union.mp h with h2 | h2
                      · exact Or.inl (hww2 a h2)
                      · exact absurd (Finset.mem_singleton.mp h2) hcl
                    · exact Or.inr (Finset.mem_singleton.mp h)
                refine Finset.mem_sdiff.mpr ⟨?_, ?_⟩
                · rcases hfs2 with h | rfl
                  · exact Finset.mem_union_left _ (Finset.mem_union_left _ h)
                  · exact Finset.mem_union_right _ (Finset.mem_singleton_self _)
                · simpa using hcl
          · simp only [hc, if_false]
            constructor
            · intro hok
              exact Except.noConfusion hok
            · intro e he a hcl hmem
              rcases hmem with hfs | hw
              · exact Finset.mem_union_left _ (hmono2 a hfs)
              · rcases Finset.mem_union.mp hw with h | h
                · exact Finset.mem_union_left _ (hww2 a h)
                · exact absurd (Finset.mem_singleton.mp h) hcl

/-- Witness for `runMain_cleanup_spec`: a one-slide run that reaches `Done`
with cleanup enabled (intermediates gone, final output present), and the
same run with a failing fade step: both a pre-existing cached artifact and a
segment produced during the failed run itself are left on disk. -/
theorem runMain_cleanup_spec_witness :
    (runMain ⟨{1}, {1}, ∅, (fun _ => []), (fun _ _ => .ok [7]), (fun _ => true),
        (fun _ => true), true, true, true, true⟩).outcome = .ok () ∧
    (∀ n ∈ (runMain ⟨{1}, {1}, ∅, (fun _ => []), (fun _ _ => .ok [7]), (fun _ => true),
        (fun _ => true), true, true, true, true⟩).workable,
      Artifact.rawAudio n ∉ (runMain ⟨{1}, {1}, ∅, (fun _ => []), (fun _ _ => .ok [7]),
        (fun _ => true), (fun _ => true), true, true, true, true⟩).fs ∧
      Artifact.paddedAudio n ∉ (runMain ⟨{1}, {1}, ∅, (fun _ => []), (fun _ _ => .ok [7]),
        (fun _ => true), (fun _ => true), true, true, true, true⟩).fs ∧
      Artifact.segment n ∉ (runMain ⟨{1}, {1}, ∅, (fun _ => []), (fun _ _ => .ok [7]),
        (fun _ => true), (fun _ => true), true, true, true, true⟩).fs) ∧
    Artifact.finalVideo ∈ (runMain ⟨{1}, {1}, ∅, (fun _ => []), (fun _ _ => .ok [7]),
      (fun _ => true), (fun _ => true), true, true, true, true⟩).fs ∧
    (runMain ⟨{1}, {1}, {Artifact.rawAudio 5}, (fun _ => []), (fun _ _ => .ok [7]),
      (fun _ => true), (fun _ => true), true, false, true, true⟩).outcome =
        .error .mediaError ∧
    Artifact.rawAudio 5 ∈ (runMain ⟨{1}, {1}, {Artifact.rawAudio 5}, (fun _ => []),
      (fun _ _ => .ok [7]), (fun _ => true), (fun _ => true), true, false, true, true⟩).fs ∧
    Artifact.segment 1 ∈ (runMain ⟨{1}, {1}, {Artifact.rawAudio 5}, (fun _ => []),
      (fun _ _ => .ok [7]), (fun _ => true), (fun _ => true), true, false, true,
      true⟩).written ∧
    Artifact.segment 1 ∈ (runMain ⟨{1}, {1}, {Artifact.rawAudio 5}, (fun _ => []),
      (fun _ _ => .ok [7]), (fun _ => true), (fun _ => true), true, false, true, true⟩).fs := by
  have e1 : ({1} : Finset Nat) \ {1} = ∅ := by decide
  have e2 : ({1} : Finset Nat) ∩ {1} = {1} := by decide
  have hrec : reconcile {1} {1} = .ok ([], [1]) := by
    simp [reconcile, only_images, only_narration, slide_numbers, e1, e2,
      Finset.sort_empty, Finset.sort_singleton]
  have hok : (runMain ⟨{1}, {1}, ∅, (fun _ => []), (fun _ _ => .ok [7]), (fun _ => true),
      (fun _ => true), true, true, true, true⟩).outcome = .ok () := by
    simp only [runMain, hrec]
    decide
  have hfail : (runMain ⟨{1}, {1}, {Artifact.rawAudio 5}, (fun _ => []),
      (fun _ _ => .ok [7]), (fun _ => true), (fun _ => true), true, false, true,
      true⟩).outcome = .error .mediaError := by
    simp only [runMain, hrec]
    decide
  have hwrit : Artifact.segment 1 ∈ (runMain ⟨{1}, {1}, {Artifact.rawAudio 5},
      (fun _ => []), (fun _ _ => .ok [7]), (fun _ => true), (fun _ => true), true, false,
      true, true⟩).written := by
    simp only [runMain, hrec]
    decide
  have h9 := (runMain_cleanup_spec ⟨{1}, {1}, ∅, (fun _ => []), (fun _ _ => .ok [7]),
    (fun _ => true), (fun _ => true), true, true, true, true⟩).1 hok rfl
  have h8 := (runMain_cleanup_spec ⟨{1}, {1}, {Artifact.rawAudio 5}, (fun _ => []),
    (fun _ _ => .ok [7]), (fun _ => true), (fun _ => true), true, false, true, true⟩).2
    .mediaError hfail (Artifact.rawAudio 5) (by decide) (Or.inl (by decide))
  have h8w := (runMain_cleanup_spec ⟨{1}, {1}, {Artifact.rawAudio 5}, (fun _ => []),
    (fun _ _ => .ok [7]), (fun _ => true), (fun _ => true), true, false, true, true⟩).2
    .mediaError hfail (Artifact.segment 1) (by decide) (Or.inr hwrit)
  exact ⟨hok, h9.1, h9.2, hfail, h8, hwrit, h8w⟩

/-- Helper: `linesOf` never returns the empty list. -/
theorem linesOf_ne_nil (s : List Char) : linesOf s ≠ [] := by
  cases s with
  | nil => simp [linesOf]
  | cons c rest =>
    simp only [linesOf]
    split <;> simp

/-- Helper: the lines of a newline-free text are the text itself. -/
theorem linesOf_nl_free (s : List Char) (h : '\n' ∉ s) : linesOf s = [s] := by
  induction s with
  | nil => rfl
  | cons c rest ih =>
    have hc : ¬c = '\n' := fun he => h (he ▸ List.mem_cons_self c rest)
    have hr : '\n' ∉ rest := fun hm => h (List.mem_cons_of_mem c hm)
    simp [linesOf, hc, ih hr]

/-- Helper: lines of a newline-free prefix glued by `'\n'` to a tail. -/
theorem linesOf_append_cons (l y : List Char) (h : '\n' ∉ l) :
    linesOf (l ++ '\n' :: y) = l :: linesOf y := by
  induction l with
  | nil => simp [linesOf]
  | cons c l' ih =>
    have hc : ¬c = '\n' := fun he => h (he ▸ List.mem_cons_self c l')
    have hr : '\n' ∉ l' := fun hm => h (List.mem_cons_of_mem c hm)
    simp [linesOf, hc, ih hr]

/-- Helper: lines of a run of newlines glued to a tail. -/
theorem linesOf_replicate_append (j : Nat) (y : List Char) :
    linesOf (List.replicate j '\n' ++ y) = List.replicate j [] ++ linesOf y := by
  induction j with
  | zero => simp
  | succ m ih => simp [List.replicate_succ, linesOf, ih]

/-- Helper: every line of a pure newline run is empty. -/
theorem linesOf_replicate_empty (m : Nat) (l : List Char)
    (h : l ∈ linesOf (List.replicate m '\n')) : l = [] := by
  have := linesOf_replicate_append m []
  rw [List.append_nil] at this
  rw [this] at h
  rcases List.mem_append.mp h with h1 | h1
  · exact List.eq_of_mem_replicate h1
  · simpa [linesOf] using h1

/-- Helper: `emitNl` is a run of newlines. -/
theorem emitNl_eq_replicate (k : Nat) : ∃ j, emitNl k = List.replicate j '\n' := by
  unfold emitNl
  split
  · exact ⟨2, rfl⟩
  · exact ⟨k, rfl⟩

/-- Helper: for a positive pending count, `emitNl` starts with a newline and
the rest is a run of newlines. -/
theorem emitNl_pos (k : Nat) (hk : 1 ≤ k) :
    ∃ j, emitNl k = '\n' :: List.replicate j '\n' := by
  unfold emitNl
  split
  · exact ⟨1, rfl⟩
  · cases k with
    | zero => omega
    | succ m => exact ⟨m, rfl⟩

/-- Helper: the collapse worker keeps the newline-free head run unchanged. -/
theorem collapseAux_takeWhile (s : List Char) :
    collapseAux 0 s =
      s.takeWhile (fun c => c != '\n') ++
        collapseAux 0 (s.dropWhile (fun c => c != '\n')) := by
  induction s with
  | nil => simp [collapseAux, emitNl]
  | cons c rest ih =>
    by_cases hc : c = '\n'
    · subst hc
      simp [List.takeWhile_cons, List.dropWhile_cons]
    · rw [List.takeWhile_cons, List.dropWhile_cons]
      have hb : (c != '\n') = true := by simpa using hc
      rw [hb]
      simp only [if_true]
      have he : collapseAux 0 (c :: rest) = c :: collapseAux 0 rest := by
        simp [collapseAux, hc, emitNl]
      rw [he, ih]
      simp

/-- Helper: with a positive pending newline count the collapse output starts
with a newline. -/
theorem collapseAux_pos_head (s : List Char) :
    ∀ k, 1 ≤ k → ∃ t, collapseAux k s = '\n' :: t := by
  induction s with
  | nil =>
    intro k hk
    obtain ⟨j, hj⟩ := emitNl_pos k hk
    exact ⟨List.replicate j '\n', by simp [collapseAux, hj]⟩
  | cons c rest ih =>
    intro k hk
    by_cases hc : c = '\n'
    · subst hc
      obtain ⟨t, ht⟩ := ih (k + 1) (by omega)
      exact ⟨t, by simp [collapseAux, ht]⟩
    · obtain ⟨j, hj⟩ := emitNl_pos k hk
      refine ⟨List.replicate j '\n' ++ c :: collapseAux 0 rest, ?_⟩
      simp [collapseAux, hc, hj]

/-- Helper: the head of a `dropWhile` result falsifies the predicate. -/
theorem dropWhile_head_false {α : Type} (p : α → Bool) :
    ∀ (l : List α) (c : α) (t : List α), l.dropWhile p = c :: t → p c = false := by
  intro l
  induction l with
  | nil => intro c t h; simp [List.dropWhile] at h
  | cons a l' ih =>
    intro c t h
    rw [List.dropWhile_cons] at h
    by_cases hp : p a = true
    · rw [if_pos hp] at h
      exact ih c t h
    · rw [if_neg hp] at h
      injection h with h1 _
      subst h1
      simpa using hp

/-- Helper: lines produced by `splitlines` contain no newline character. -/
theorem splitlinesAux_nl_free (s acc : List Char) :
    '\n' ∉ acc → ∀ l ∈ splitlinesAux s acc, '\n' ∉ l := by
  induction s, acc using splitlinesAux.induct with
  | case1 acc hacc =>
    intro hn l hl
    rw [splitlinesAux.eq_1, if_pos hacc] at hl
    simp at hl
  | case2 acc hacc =>
    intro hn l hl
    rw [splitlinesAux.eq_1, if_neg hacc] at hl
    simp at hl
    subst hl
    intro hm
    exact hn (List.mem_reverse.mp hm)
  | case3 acc =>
    intro hn l hl
    rw [splitlinesAux.eq_2, if_pos rfl] at hl
    simp at hl
    subst hl
    intro hm
    exact hn (List.mem_reverse.mp hm)
  | case4 acc rest' ih =>
    intro hn l hl
    rw [splitlinesAux.eq_3, if_pos rfl, if_pos rfl] at hl
    rcases List.mem_cons.mp hl with rfl | hl
    · intro hm
      exact hn (List.mem_reverse.mp hm)
    · exact ih (by simp) l hl
  | case5 acc d rest' hd ih =>
    intro hn l hl
    rw [splitlinesAux.eq_3, if_pos rfl, if_neg hd] at hl
    rcases List.mem_cons.mp hl with rfl | hl
    · intro hm
      exact hn (List.mem_reverse.mp hm)
    · exact ih (by simp) l hl
  | case6 c rest acc hc hterm ih =>
    intro hn l hl
    cases rest with
    | nil =>
      rw [splitlinesAux.eq_2, if_neg hc, if_pos hterm] at hl
      rcases List.mem_cons.mp hl with rfl | hl
      · intro hm
        exact hn (List.mem_reverse.mp hm)
      · exact ih (by simp) l hl
    | cons d rest' =>
      rw [splitlinesAux.eq_3, if_neg hc, if_pos hterm] at hl
      rcases List.mem_cons.mp hl with rfl | hl
      · intro hm
        exact hn (List.mem_reverse.mp hm)
      · exact ih (by simp) l hl
  | case7 c rest acc hc hterm ih =>
    intro hn l hl
    have hcn : ¬ c = '\n' := by
      intro he
      subst he
      exact hterm (by decide)
    have hacc : '\n' ∉ c :: acc := by
      intro hm
      rcases List.mem_cons.mp hm with he | hm
      · exact hcn he.symm
      · exact hn hm
    cases rest with
    | nil =>
      rw [splitlinesAux.eq_2, if_neg hc, if_neg hterm] at hl
      exact ih hacc l hl
    | cons d rest' =>
      rw [splitlinesAux.eq_3, if_neg hc, if_neg hterm] at hl
      exact ih hacc l hl

/-- Helper: membership survives `stripC`. -/
theorem mem_stripC (s : List Char) (a : Char) (h : a ∈ stripC s) : a ∈ s := by
  rw [stripC] at h
  rw [List.mem_reverse] at h
  have h1 := (List.dropWhile_sublist isSpaceC).subset h
  rw [List.mem_reverse] at h1
  exact (List.dropWhile_sublist isSpaceC).subset h1

/-- Helper: a nonempty `stripC` result starts with a non-whitespace character. -/
theorem stripC_head_not_space (s : List Char) (c : Char) (t : List Char)
    (h : stripC s = c :: t) : isSpaceC c = false := by
  rw [stripC] at h
  have h1 : (s.dropWhile isSpaceC).reverse.takeWhile isSpaceC ++
      (s.dropWhile isSpaceC).reverse.dropWhile isSpaceC = (s.dropWhile isSpaceC).reverse :=
    List.takeWhile_append_dropWhile _ _
  have h2 := congrArg List.reverse h1
  rw [List.reverse_append, List.reverse_reverse] at h2
  rw [h] at h2
  rw [List.cons_append] at h2
  exact dropWhile_head_false isSpaceC s c _ h2.symm

/-- Helper: a nonempty `stripC` result ends with a non-whitespace character. -/
theorem stripC_getLast_not_space (s : List Char) (c : Char)
    (h : (stripC s).getLast? = some c) : isSpaceC c = false := by
  rw [stripC, List.getLast?_reverse] at h
  cases hX : (s.dropWhile isSpaceC).reverse.dropWhile isSpaceC with
  | nil => rw [hX] at h; simp at h
  | cons x xs =>
    rw [hX] at h
    simp at h
    subst h
    exact dropWhile_head_false isSpaceC _ _ _ hX

/-- Helper: characterization of the lines kept by the cleaning loop. -/
theorem mem_cleanLines (raw l : List Char) (h : l ∈ cleanLines raw) :
    (∃ x, l = stripC x ∧ '\n' ∉ x) ∧
    isSeparatorLine l = false ∧ isFooterLine l = false := by
  rw [cleanLines] at h
  rcases List.mem_filterMap.mp h with ⟨x, hx, hfx⟩
  simp only [] at hfx
  by_cases hcond : (isSeparatorLine (stripC x) || isFooterLine (stripC x)) = true
  · rw [if_pos hcond] at hfx
    cases hfx
  · rw [if_neg hcond] at hfx
    injection hfx with hl
    subst hl
    have hnx : '\n' ∉ x := splitlinesAux_nl_free raw [] (by simp) x hx
    have hcond' : (isSeparatorLine (stripC x) || isFooterLine (stripC x)) = false :=
      Bool.eq_false_iff.mpr hcond
    rcases Bool.or_eq_false_iff.mp hcond' with ⟨h1, h2⟩
    exact ⟨⟨x, rfl, hnx⟩, h1, h2⟩

/-- Helper: cleaned lines contain no newline. -/
theorem cleanLines_nl_free (raw l : List Char) (h : l ∈ cleanLines raw) : '\n' ∉ l := by
  obtain ⟨⟨x, rfl, hnx⟩, -⟩ := mem_cleanLines raw l h
  exact fun hm => hnx (mem_stripC x '\n' hm)

/-- Helper: cleaned lines start with non-whitespace. -/
theorem cleanLines_head (raw l : List Char) (h : l ∈ cleanLines raw) :
    ∀ c t, l = c :: t → isSpaceC c = false := by
  obtain ⟨⟨x, rfl, -⟩, -⟩ := mem_cleanLines raw l h
  intro c t hct
  exact stripC_head_not_space x c t hct

/-- Helper: cleaned lines end with non-whitespace. -/
theorem cleanLines_getLast (raw l : List Char) (h : l ∈ cleanLines raw) :
    ∀ c, l.getLast? = some c → isSpaceC c = false := by
  obtain ⟨⟨x, rfl, -⟩, -⟩ := mem_cleanLines raw l h
  intro c hc
  exact stripC_getLast_not_space x c hc

/-- Helper: `joinNl` of a snoc. -/
theorem joinNl_append_single (xs : List (List Char)) (x : List Char) :
    joinNl (xs ++ [x]) = if xs = [] then x else joinNl xs ++ '\n' :: x := by
  induction xs with
  | nil => simp [joinNl]
  | cons y xs' ih =>
    cases xs' with
    | nil => simp [joinNl]
    | cons z zs =>
      rw [if_neg (by simp)]
      have h1 : joinNl ((y :: z :: zs) ++ [x]) = y ++ '\n' :: joinNl ((z :: zs) ++ [x]) := rfl
      rw [h1, ih, if_neg (by simp)]
      have h2 : joinNl (y :: z :: zs) = y ++ '\n' :: joinNl (z :: zs) := rfl
      rw [h2]
      simp [List.append_assoc]

/-- Helper: reversing a `joinNl` joins the reversed lines in reverse order. -/
theorem reverse_joinNl (ls : List (List Char)) :
    (joinNl ls).reverse = joinNl ((ls.map List.reverse).reverse) := by
  induction ls with
  | nil => simp [joinNl]
  | cons l ls' ih =>
    cases ls' with
    | nil => simp [joinNl]
    | cons l2 ls'' =>
      have h1 : joinNl (l :: l2 :: ls'') = l ++ '\n' :: joinNl (l2 :: ls'') := rfl
      rw [h1, List.reverse_append, List.reverse_cons]
      rw [List.map_cons, List.reverse_cons, joinNl_append_single]
      rw [if_neg (by simp)]
      rw [ih]
      simp [List.append_assoc]

/-- Helper: emptiness of lines is preserved by reversing each line. -/
theorem dropWhile_isEmpty_map_reverse (ls : List (List Char)) :
    (ls.map List.reverse).dropWhile List.isEmpty =
      (ls.dropWhile List.isEmpty).map List.reverse := by
  induction ls with
  | nil => simp
  | cons l ls' ih =>
    rw [List.map_cons, List.dropWhile_cons, List.dropWhile_cons]
    have he : l.reverse.isEmpty = l.isEmpty := by
      cases l with
      | nil => rfl
      | cons c t =>
        rw [List.reverse_cons]
        cases ht : t.reverse with
        | nil => rfl
        | cons d t' => rfl
    rw [he]
    by_cases h : l.isEmpty = true
    · rw [if_pos h, if_pos h]
      exact ih
    · rw [if_neg h, if_neg h, List.map_cons]

/-- Helper: dropping leading whitespace from a join of edge-stripped lines
drops exactly the leading empty lines. -/
theorem dropWhile_space_joinNl (ls : List (List Char))
    (hhead : ∀ l ∈ ls, ∀ c t, l = c :: t → isSpaceC c = false) :
    (joinNl ls).dropWhile isSpaceC = joinNl (ls.dropWhile List.isEmpty) := by
  induction ls with
  | nil => simp [joinNl]
  | cons l ls' ih =>
    rcases l with - | ⟨c, t⟩
    · cases ls' with
      | nil => simp [joinNl]
      | cons l2 ls'' =>
        have h1 : joinNl ([] :: l2 :: ls'') = '\n' :: joinNl (l2 :: ls'') := rfl
        have h2 : List.dropWhile List.isEmpty ([] :: l2 :: ls'') =
            List.dropWhile List.isEmpty (l2 :: ls'') := by
          rw [List.dropWhile_cons]
          simp
        rw [h1, h2, List.dropWhile_cons, if_pos (by decide : isSpaceC '\n' = true)]
        exact ih (fun x hm => hhead x (List.mem_cons_of_mem _ hm))
    · have hc : isSpaceC c = false := hhead (c :: t) (List.mem_cons_self _ _) c t rfl
      have hcn : ¬isSpaceC c = true := by simp [hc]
      cases ls' with
      | nil =>
        have h1 : joinNl [c :: t] = c :: t := rfl
        rw [h1, List.dropWhile_cons, if_neg hcn]
        rw [List.dropWhile_cons, if_neg (by simp)]
        rfl
      | cons l2 ls'' =>
        have h1 : joinNl ((c :: t) :: l2 :: ls'') = (c :: t) ++ '\n' :: joinNl (l2 :: ls'') := rfl
        rw [h1, List.cons_append, List.dropWhile_cons, if_neg hcn]
        rw [List.dropWhile_cons, if_neg (by simp)]
        rfl

/-- Helper: `str.strip` of a join of clean lines is a join of a subset of the
lines. -/
theorem stripC_joinNl (ls : List (List Char))
    (hhead : ∀ l ∈ ls, ∀ c t, l = c :: t → isSpaceC c = false)
    (hlast : ∀ l ∈ ls, ∀ c, l.getLast? = some c → isSpaceC c = false) :
    ∃ ls', (∀ l ∈ ls', l ∈ ls) ∧ stripC (joinNl ls) = joinNl ls' := by
  have h1 : (joinNl ls).dropWhile isSpaceC = joinNl (ls.dropWhile List.isEmpty) :=
    dropWhile_space_joinNl ls hhead
  have hu1 : ∀ l ∈ ls.dropWhile List.isEmpty, l ∈ ls :=
    fun l hm => (List.dropWhile_sublist _).subset hm
  have h2 : (joinNl (ls.dropWhile List.isEmpty)).reverse =
      joinNl (((ls.dropWhile List.isEmpty).map List.reverse).reverse) :=
    reverse_joinNl _
  have hM : ∀ m ∈ ((ls.dropWhile List.isEmpty).map List.reverse).reverse,
      ∃ l, l ∈ ls ∧ m = l.reverse := by
    intro m hm
    rw [List.mem_reverse] at hm
    rcases List.mem_map.mp hm with ⟨l, hl, hml⟩
    exact ⟨l, hu1 l hl, hml.symm⟩
  have hMhead : ∀ m ∈ ((ls.dropWhile List.isEmpty).map List.reverse).reverse,
      ∀ c t, m = c :: t → isSpaceC c = false := by
    intro m hm c t hmt
    obtain ⟨l, hl, rfl⟩ := hM m hm
    have hrc : l.reverse.head? = some c := by
      rw [hmt]
      rfl
    rw [List.head?_reverse] at hrc
    exact hlast l hl c hrc
  have h3 : (joinNl (((ls.dropWhile List.isEmpty).map List.reverse).reverse)).dropWhile
        isSpaceC =
      joinNl ((((ls.dropWhile List.isEmpty).map List.reverse).reverse).dropWhile
        List.isEmpty) :=
    dropWhile_space_joinNl _ hMhead
  have h4 : (joinNl ((((ls.dropWhile List.isEmpty).map List.reverse).reverse).dropWhile
        List.isEmpty)).reverse =
      joinNl ((((((ls.dropWhile List.isEmpty).map List.reverse).reverse).dropWhile
        List.isEmpty).map List.reverse).reverse) :=
    reverse_joinNl _
  refine ⟨(List.map List.reverse (List.dropWhile List.isEmpty
      ((List.map List.reverse (List.dropWhile List.isEmpty ls)).reverse))).reverse, ?_, ?_⟩
  · intro l hl
    rw [List.mem_reverse] at hl
    rcases List.mem_map.mp hl with ⟨m, hm, hml⟩
    obtain ⟨l0, hl0, rfl⟩ := hM m ((List.dropWhile_sublist _).subset hm)
    rw [← hml, List.reverse_reverse]
    exact hl0
  · rw [stripC, h1, h2, h3, h4]

/-- Helper: the `'\n'`-split of a join of newline-free lines recovers the
lines. -/
theorem linesOf_joinNl (ls : List (List Char)) (h : ∀ l ∈ ls, '\n' ∉ l) (hne : ls ≠ []) :
    linesOf (joinNl ls) = ls := by
  induction ls with
  | nil => exact absurd rfl hne
  | cons l ls' ih =>
    cases ls' with
    | nil =>
      have h1 : joinNl [l] = l := rfl
      rw [h1, linesOf_nl_free l (h l (List.mem_cons_self _ _))]
    | cons l2 ls'' =>
      have h1 : joinNl (l :: l2 :: ls'') = l ++ '\n' :: joinNl (l2 :: ls'') := rfl
      rw [h1, linesOf_append_cons _ _ (h l (List.mem_cons_self _ _))]
      rw [ih (fun x hx => h x (List.mem_cons_of_mem _ hx)) (by simp)]

/-- Helper: two-part induction for the collapse substitution.  With a pending
newline run the output starts with a newline, and every line of the output is
empty or a line of the input (the second part is stated after prepending one
non-newline character, the shape needed by the recursion). -/
theorem collapse_lines_key :
    ∀ (N : Nat) (s : List Char), s.length ≤ N →
      (∀ k, 1 ≤ k → ∃ t, collapseAux k s = '\n' :: t ∧
        ∀ l ∈ linesOf t, l = [] ∨ l ∈ linesOf s) ∧
      (∀ c, ¬c = '\n' → ∀ l ∈ linesOf (c :: collapseAux 0 s),
        l = [] ∨ l ∈ linesOf (c :: s)) := by
  intro N
  induction N with
  | zero =>
    intro s hlen
    have hs : s = [] := List.length_eq_zero.mp (Nat.le_zero.mp hlen)
    subst hs
    constructor
    · intro k hk
      obtain ⟨j, hj⟩ := emitNl_pos k hk
      refine ⟨List.replicate j '\n', by simp [collapseAux, hj], ?_⟩
      intro l hl
      exact Or.inl (linesOf_replicate_empty j l hl)
    · intro c hc l hl
      have h0 : collapseAux 0 ([] : List Char) = [] := rfl
      rw [h0] at hl
      have hlc : linesOf [c] = [[c]] := linesOf_nl_free [c] (by
        intro hm
        rcases List.mem_cons.mp hm with he | hm2
        · exact hc he.symm
        · cases hm2)
      rw [hlc] at hl
      simp at hl
      subst hl
      right
      rw [hlc]
      simp
  | succ M ihM =>
    intro s hlen
    cases s with
    | nil => exact ihM [] (by simp)
    | cons c0 rest =>
      have hrest : rest.length ≤ M := by
        simp [List.length_cons] at hlen
        omega
      constructor
      · intro k hk
        by_cases hc0 : c0 = '\n'
        · subst hc0
          have he : collapseAux k ('\n' :: rest) = collapseAux (k + 1) rest := by
            simp [collapseAux]
          obtain ⟨t, ht, hti⟩ := (ihM rest hrest).1 (k + 1) (by omega)
          refine ⟨t, by rw [he, ht], ?_⟩
          intro l hl
          rcases hti l hl with h | h
          · exact Or.inl h
          · right
            have h2 : linesOf ('\n' :: rest) = [] :: linesOf rest := by simp [linesOf]
            rw [h2]
            exact List.mem_cons_of_mem _ h
        · have he : collapseAux k (c0 :: rest) = emitNl k ++ c0 :: collapseAux 0 rest := by
            simp [collapseAux, hc0]
          obtain ⟨j, hj⟩ := emitNl_pos k hk
          refine ⟨List.replicate j '\n' ++ c0 :: collapseAux 0 rest, ?_, ?_⟩
          · rw [he, hj]
            rfl
          · intro l hl
            rw [linesOf_replicate_append] at hl
            rcases List.mem_append.mp hl with h | h
            · exact Or.inl (List.eq_of_mem_replicate h)
            · exact (ihM rest hrest).2 c0 hc0 l h
      · intro c hc l hl
        have hfl := collapseAux_takeWhile (c0 :: rest)
        set tw := (c0 :: rest).takeWhile (fun x => x != '\n') with htw
        set dw := (c0 :: rest).dropWhile (fun x => x != '\n') with hdw
        have htwnl : '\n' ∉ tw := by
          intro hm
          have := List.mem_takeWhile_imp hm
          simp at this
        have hsplit : tw ++ dw = c0 :: rest := List.takeWhile_append_dropWhile _ _
        have hcnl : '\n' ∉ c :: tw := by
          intro hm
          rcases List.mem_cons.mp hm with he | hm2
          · exact hc he.symm
          · exact htwnl hm2
        cases hdwc : dw with
        | nil =>
          rw [hfl, hdwc] at hl
          have h0 : collapseAux 0 ([] : List Char) = [] := rfl
          rw [h0, List.append_nil] at hl
          have hs' : c0 :: rest = tw := by rw [← hsplit, hdwc, List.append_nil]
          have hlc : linesOf (c :: tw) = [c :: tw] := linesOf_nl_free _ hcnl
          rw [hlc] at hl
          simp at hl
          subst hl
          right
          rw [hs', hlc]
          simp
        | cons d dw' =>
          have hd : (fun x => x != '\n') d = false := by
            refine dropWhile_head_false (fun x => x != '\n') (c0 :: rest) d dw' ?_
            rw [← hdw]
            exact hdwc
          have hdn : d = '\n' := by simpa using hd
          subst hdn
          have he1 : collapseAux 0 ('\n' :: dw') = collapseAux 1 dw' := by
            simp [collapseAux]
          have hlendw : dw'.length ≤ M := by
            have h5 : dw.length ≤ (c0 :: rest).length := (List.dropWhile_sublist _).length_le
            rw [hdwc] at h5
            simp [List.length_cons] at h5 hlen
            omega
          obtain ⟨t, ht, hti⟩ := (ihM dw' hlendw).1 1 (by omega)
          rw [hfl, hdwc, he1, ht] at hl
          have hl2 : linesOf (c :: (tw ++ '\n' :: t)) = (c :: tw) :: linesOf t := by
            have h6 := linesOf_append_cons (c :: tw) t hcnl
            simpa using h6
          rw [hl2] at hl
          have hs' : c0 :: rest = tw ++ '\n' :: dw' := by rw [← hsplit, hdwc]
          have hl3 : linesOf (c :: (c0 :: rest)) = (c :: tw) :: linesOf dw' := by
            rw [hs']
            have h7 := linesOf_append_cons (c :: tw) dw' hcnl
            simpa using h7
          rcases List.mem_cons.mp hl with rfl | hl'
          · right
            rw [hl3]
            exact List.mem_cons_self _ _
          · rcases hti l hl' with h | h
            · exact Or.inl h
            · right
              rw [hl3]
              exact List.mem_cons_of_mem _ h

/-- Helper: every line of the collapse output is empty or a line of the
input. -/
theorem collapse_lines (s l : List Char) (hl : l ∈ linesOf (collapseBlank s)) :
    l = [] ∨ l ∈ linesOf s := by
  cases s with
  | nil =>
    have h0 : collapseBlank ([] : List Char) = [] := rfl
    rw [h0] at hl
    simp [linesOf] at hl
    exact Or.inl hl
  | cons c rest =>
    by_cases hc : c = '\n'
    · subst hc
      have he : collapseBlank ('\n' :: rest) = collapseAux 1 rest := by
        simp [collapseBlank, collapseAux]
      obtain ⟨t, ht, hti⟩ := (collapse_lines_key rest.length rest le_rfl).1 1 (by omega)
      rw [he, ht] at hl
      have h2 : linesOf ('\n' :: t) = [] :: linesOf t := by simp [linesOf]
      rw [h2] at hl
      rcases List.mem_cons.mp hl with rfl | hl'
      · exact Or.inl rfl
      · rcases hti l hl' with h | h
        · exact Or.inl h
        · right
          have h3 : linesOf ('\n' :: rest) = [] :: linesOf rest := by simp [linesOf]
          rw [h3]
          exact List.mem_cons_of_mem _ h
    · have he : collapseBlank (c :: rest) = c :: collapseAux 0 rest := by
        simp [collapseBlank, collapseAux, hc, emitNl]
      rw [he] at hl
      exact (collapse_lines_key rest.length rest le_rfl).2 c hc l hl

/-- Helper: no line of a cleaned body is a separator line or a footer line. -/
theorem cleanBody_lines (raw l : List Char) (h : l ∈ linesOf (cleanBody raw)) :
    isSeparatorLine l = false ∧ isFooterLine l = false := by
  rw [cleanBody] at h
  obtain ⟨ls', hsub, heq⟩ := stripC_joinNl (cleanLines raw)
    (fun x hm => cleanLines_head raw x hm)
    (fun x hm => cleanLines_getLast raw x hm)
  rw [heq] at h
  rcases collapse_lines _ l h with rfl | h2
  · exact ⟨by decide, by decide⟩
  · by_cases hls : ls' = []
    · subst hls
      have h3 : linesOf (joinNl ([] : List (List Char))) = [[]] := rfl
      rw [h3] at h2
      simp at h2
      subst h2
      exact ⟨by decide, by decide⟩
    · have hnl : ∀ x ∈ ls', '\n' ∉ x := fun x hx => cleanLines_nl_free raw x (hsub x hx)
      rw [linesOf_joinNl ls' hnl hls] at h2
      obtain ⟨-, hs, hf⟩ := mem_cleanLines raw l (hsub l h2)
      exact ⟨hs, hf⟩

/-- Helper: inserting a fresh key into the dict model appends. -/
theorem dinsert_append (acc : List (Nat × List Char)) (k : Nat) (v : List Char)
    (h : k ∉ acc.map Prod.fst) : dinsert acc k v = acc ++ [(k, v)] := by
  induction acc with
  | nil => rfl
  | cons p rest ih =>
    rcases p with ⟨k', v'⟩
    have h1 : ¬k' = k := fun he => h (by simp [he])
    have h2 : k ∉ rest.map Prod.fst := fun hm => h (by simp [hm])
    simp only [dinsert]
    rw [if_neg h1, ih h2, List.cons_append]

/-- Helper: the section loop succeeds and produces one entry per marker, in
marker order, when every marker line is reachable by a newline search and
the parsed slide numbers are distinct; every produced body is a cleaned
body. -/
theorem buildSlides_spec (text : List Char) :
    ∀ (ms : List (Nat × Nat)) (acc : List (Nat × List Char)),
      (∀ pr ∈ ms, (findNewlineFrom text pr.1).isSome = true) →
      (ms.map Prod.snd).Nodup →
      (∀ pr ∈ ms, pr.2 ∉ acc.map Prod.fst) →
      ∃ res, buildSlides text ms acc = .ok res ∧
        res.map Prod.fst = acc.map Prod.fst ++ ms.map Prod.snd ∧
        ∀ p ∈ res, p ∈ acc ∨ ∃ raw, p.2 = cleanBody raw := by
  intro ms
  induction ms with
  | nil =>
    intro acc h1 h2 h3
    exact ⟨acc, rfl, by simp, fun p hp => Or.inl hp⟩
  | cons hd rest ih =>
    intro acc h1 h2 h3
    rcases hd with ⟨start, num⟩
    have hnl := h1 (start, num) (List.mem_cons_self _ _)
    rcases hopt : findNewlineFrom text start with - | lineEnd
    · rw [hopt] at hnl
      simp at hnl
    · rw [List.map_cons] at h2
      have h2' := List.nodup_cons.mp h2
      have h1' : ∀ pr ∈ rest, (findNewlineFrom text pr.1).isSome = true :=
        fun pr hpr => h1 pr (List.mem_cons_of_mem _ hpr)
      have h3' : ∀ pr ∈ rest, pr.2 ∉ (acc ++ [(num,
          cleanBody (pySlice text (lineEnd + 1) (bodyEndOf text rest)))]).map Prod.fst := by
        intro pr hpr hmem
        rw [List.map_append, List.mem_append] at hmem
        rcases hmem with hm | hm
        · exact h3 pr (List.mem_cons_of_mem _ hpr) hm
        · simp at hm
          have hms : pr.2 ∈ rest.map Prod.snd := List.mem_map_of_mem Prod.snd hpr
          rw [hm] at hms
          exact h2'.1 hms
      obtain ⟨res, hres, hmap, hmem⟩ := ih (acc ++ [(num,
        cleanBody (pySlice text (lineEnd + 1) (bodyEndOf text rest)))]) h1' h2'.2 h3'
      refine ⟨res, ?_, ?_, ?_⟩
      · simp only [buildSlides, hopt]
        rw [dinsert_append acc num _ (h3 _ (List.mem_cons_self _ _))]
        exact hres
      · rw [hmap]
        simp [List.map_append, List.map_cons]
      · intro p hp
        rcases hmem p hp with hpa | hraw
        · rcases List.mem_append.mp hpa with hm | hm
          · exact Or.inl hm
          · simp at hm
            subst hm
            exact Or.inr ⟨pySlice text (lineEnd + 1) (bodyEndOf text rest), rfl⟩
        · exact Or.inr hraw

/-- C1: for every well-formed document — at least one `SLIDE <n>` marker,
every marker line reachable by the newline search (e.g. the document ends
with a newline), and pairwise-distinct parsed slide numbers —
`parse_script` succeeds with exactly one entry per marker, keyed by the
parsed slide numbers in marker order, and no line of any returned text is a
separator line (3+ repeated `=`/`-`) or a footer line ("END OF SCRIPT" /
"END OF NARRATION", case-insensitive). -/
theorem parse_script_wellformed_spec (doc : List Char)
    (h1 : findMarkers doc ≠ [])
    (h2 : ∀ pr ∈ findMarkers doc, (findNewlineFrom doc pr.1).isSome = true)
    (h3 : ((findMarkers doc).map Prod.snd).Nodup) :
    ∃ m, parse_script doc = .ok m ∧
      m.length = (findMarkers doc).length ∧
      m.map Prod.fst = (findMarkers doc).map Prod.snd ∧
      ∀ p ∈ m, ∀ l ∈ linesOf p.2,
        isSeparatorLine l = false ∧ isFooterLine l = false := by
  obtain ⟨res, hres, hmap, hmem⟩ := buildSlides_spec doc (findMarkers doc) [] h2 h3 (by simp)
  have hne : (findMarkers doc).isEmpty = false := by
    cases hfm : findMarkers doc with
    | nil => exact absurd hfm h1
    | cons a as => rfl
  refine ⟨res, ?_, ?_, ?_, ?_⟩
  · simp only [parse_script, hne, Bool.false_eq_true, if_false]
    exact hres
  · have hlen := congrArg List.length hmap
    simpa using hlen
  · simpa using hmap
  · intro p hp l hl
    rcases hmem p hp with hpa | ⟨raw, hraw⟩
    · cases hpa
    · rw [hraw] at hl
      exact cleanBody_lines raw l hl

/-- Witness for `parse_script_wellformed_spec` at a concrete two-marker
document. -/
theorem parse_script_wellformed_spec_witness :
    findMarkers ("SLIDE 1\nhello\nSLIDE 2\nworld\n".toList) ≠ [] ∧
    (∀ pr ∈ findMarkers ("SLIDE 1\nhello\nSLIDE 2\nworld\n".toList),
      (findNewlineFrom ("SLIDE 1\nhello\nSLIDE 2\nworld\n".toList) pr.1).isSome = true) ∧
    ((findMarkers ("SLIDE 1\nhello\nSLIDE 2\nworld\n".toList)).map Prod.snd).Nodup ∧
    ∃ m, parse_script ("SLIDE 1\nhello\nSLIDE 2\nworld\n".toList) = .ok m ∧
      m.length = (findMarkers ("SLIDE 1\nhello\nSLIDE 2\nworld\n".toList)).length ∧
      m.map Prod.fst =
        (findMarkers ("SLIDE 1\nhello\nSLIDE 2\nworld\n".toList)).map Prod.snd ∧
      ∀ p ∈ m, ∀ l ∈ linesOf p.2,
        isSeparatorLine l = false ∧ isFooterLine l = false :=
  ⟨by decide, by decide, by decide,
    parse_script_wellformed_spec _ (by decide) (by decide) (by decide)⟩
